import Mathlib

/-!
Verification of the MPT circuit chips of this repository.

The halo2-style polynomial constraints and lookup tuples of each chip are
shallowly embedded as field-valued functions of a cell assignment
`A : ℤ → Col → F` (a rotation `Rotation(k)` queried at anchor row `i`
becomes a read of `A (i + k) col`), with one column inductive type per chip.
The witness-assignment routine of the account non-existing chip is embedded
as an executable recursive function.  All definitions follow the Rust source
in `src/mpt` and `src/zkevm-circuits/src/mpt_circuit`.
-/

variable {F : Type} [Field F]

instance fact_prime_13 : Fact (Nat.Prime 13) := ⟨by norm_num⟩

/-- Running RLC accumulation step shared by `leaf_value.rs` and
`account_leaf_storage_codehash.rs`: starting from a pair
`(rlc, mult)`, each byte `b` updates the pair to `(rlc + b * mult, mult * r)`. -/
def rlcStep (r : F) (p : F × F) (bs : List F) : F × F :=
  bs.foldl (fun q b => (q.1 + b * q.2, q.2 * r)) p

lemma rlcStep_append (r : F) (p : F × F) (xs ys : List F) :
    rlcStep r p (xs ++ ys) = rlcStep r (rlcStep r p xs) ys :=
  List.foldl_append _ _ _ _

lemma rlcStep_singleton (r a m b : F) :
    rlcStep r (a, m) [b] = (a + b * m, m * r) := rfl

lemma rlcStep_range (r : F) (f : ℕ → F) (a m : F) (n : ℕ) :
    rlcStep r (a, m) ((List.range n).map f)
      = (a + m * ∑ k in Finset.range n, f k * r ^ k, m * r ^ n) := by
  induction n with
  | zero => simp [rlcStep]
  | succ n ih =>
    rw [List.range_succ, List.map_append, rlcStep_append, ih]
    rw [show (List.map f [n]) = [f n] from rfl, rlcStep_singleton]
    rw [Finset.sum_range_succ, pow_succ]
    refine congrArg₂ Prod.mk ?_ ?_
    · ring
    · ring

/-- The nonzero-difference product check of
`account_non_existing.rs` (`add_wrong_leaf_constraints`, line 155):
`require!((rlc - rlc_prev) * diff_inv => 1)` registers the polynomial
`(rlc - rlc_prev) * diff_inv - 1`, satisfied exactly when it is zero. -/
def wrongLeafDiffCheck (rlc rlcPrev diffInv : F) : F :=
  (rlc - rlcPrev) * diffInv - 1

/-- C1: the constraint `(rlc - rlc_prev) * diff_inv = 1` is satisfiable
exactly when the two stored key RLC values differ: for `a ≠ b` the witness
`d = (a - b)⁻¹` satisfies it, and for `a = b` no field element does,
since zero has no multiplicative inverse. -/
theorem wrong_leaf_diff_check_satisfiable_iff_ne (a b : F) :
    (a ≠ b → ∃ d : F, wrongLeafDiffCheck a b d = 0)
      ∧ (a = b → ∀ d : F, wrongLeafDiffCheck a b d ≠ 0) := by
  constructor
  · intro hne
    refine ⟨(a - b)⁻¹, ?_⟩
    have h : a - b ≠ 0 := sub_ne_zero.mpr hne
    simp [wrongLeafDiffCheck, mul_inv_cancel₀ h]
  · intro heq d
    subst heq
    simp [wrongLeafDiffCheck]

theorem wrong_leaf_diff_check_concrete :
    (∃ d : ZMod 13, wrongLeafDiffCheck 3 5 d = 0)
      ∧ wrongLeafDiffCheck (3 : ZMod 13) 3 7 ≠ 0 :=
  ⟨(wrong_leaf_diff_check_satisfiable_iff_ne 3 5).1 (by decide),
   (wrong_leaf_diff_check_satisfiable_iff_ne (3 : ZMod 13) 3).2 rfl 7⟩

/-- Columns queried by `BranchHashInParentConfig::configure`
(`branch_hash_in_parent.rs`).  The two placeholder constructors stand for
`s_main.bytes[IS_BRANCH_S_PLACEHOLDER_POS - RLP_NUM]` and
`s_main.bytes[IS_BRANCH_C_PLACEHOLDER_POS - RLP_NUM]`. -/
inductive BCol
  | interRoot
  | notFirstLevel
  | qNotFirst
  | isAccountLeafInAddedBranch
  | isLastBranchChild
  | isBranchPlaceholderS
  | isBranchPlaceholderC
  | modNodeHashRlc
  | acc
  | accMult
  deriving DecidableEq

/-- The branch RLC as sent to the Keccak table (`branch_hash_in_parent.rs`,
`branch_acc = acc + c128 * mult`; the `128 * mult` term accounts for the
branch ValueNode byte not yet folded into `acc`). -/
def branchAcc (acc mult : F) : F := acc + 128 * mult

/-- Which placeholder column the chip instance reads, per its `is_s` flag. -/
def placeholderCol (isS : Bool) : BCol :=
  if isS then BCol.isBranchPlaceholderS else BCol.isBranchPlaceholderC

/-- Left-hand tuple of the first lookup of `branch_hash_in_parent.rs`
("account first level branch hash - compared to root"), gated by
`q_not_first * is_last_branch_child * (1 - not_first_level)`. -/
def branchRootLookup (A : ℤ → BCol → F) (i : ℤ) : F × F :=
  (A i BCol.qNotFirst * A i BCol.isLastBranchChild
      * (1 - A i BCol.notFirstLevel)
      * branchAcc (A i BCol.acc) (A i BCol.accMult),
   A i BCol.qNotFirst * A i BCol.isLastBranchChild
      * (1 - A i BCol.notFirstLevel)
      * A i BCol.interRoot)

/-- Left-hand tuple of the second lookup of `branch_hash_in_parent.rs`
("branch_hash_in_parent"): the branch placeholder flag is read at rotation
-16 (the branch init row), `is_account_leaf_in_added_branch` at rotation
-17, and the parent stored child-hash RLC `mod_node_hash_rlc` at rotation
-19.  `ext` is the value of `get_is_extension_node(meta, s_main.bytes, -16)`
(its helper is outside the sampled sources, so the flag value is a
parameter here). -/
def branchHashInParentLookup (isS : Bool) (ext : F) (A : ℤ → BCol → F) (i : ℤ) :
    F × F :=
  (A i BCol.notFirstLevel * A i BCol.isLastBranchChild
      * (1 - A (i - 17) BCol.isAccountLeafInAddedBranch)
      * (1 - A (i - 16) (placeholderCol isS))
      * (1 - ext)
      * branchAcc (A i BCol.acc) (A i BCol.accMult),
   A i BCol.notFirstLevel * A i BCol.isLastBranchChild
      * (1 - A (i - 17) BCol.isAccountLeafInAddedBranch)
      * (1 - A (i - 16) (placeholderCol isS))
      * (1 - ext)
      * A (i - 19) BCol.modNodeHashRlc)

/-- C2: if any skip flag is set (branch placeholder at rotation -16,
extension-node flag, or account-leaf-in-added-branch at rotation -17), the
hash-in-parent lookup tuple is the zero tuple regardless of the accumulator;
with all skip flags zero and `not_first_level` and `is_last_branch_child`
equal to 1, the tuple is the branch RLC paired with the parent stored
child-hash RLC. -/
theorem branch_hash_in_parent_skip_flags (isS : Bool) (ext : F)
    (A : ℤ → BCol → F) (i : ℤ) :
    ((A (i - 16) (placeholderCol isS) = 1 ∨ ext = 1
        ∨ A (i - 17) BCol.isAccountLeafInAddedBranch = 1) →
      branchHashInParentLookup isS ext A i = (0, 0))
    ∧ ((A (i - 16) (placeholderCol isS) = 0 ∧ ext = 0
        ∧ A (i - 17) BCol.isAccountLeafInAddedBranch = 0
        ∧ A i BCol.notFirstLevel = 1 ∧ A i BCol.isLastBranchChild = 1) →
      branchHashInParentLookup isS ext A i
        = (branchAcc (A i BCol.acc) (A i BCol.accMult),
           A (i - 19) BCol.modNodeHashRlc)) := by
  constructor
  · intro h
    unfold branchHashInParentLookup
    rcases h with h | h | h <;> rw [h] <;> simp
  · rintro ⟨hp, he, ha, hn, hl⟩
    unfold branchHashInParentLookup
    rw [hp, he, ha, hn, hl]
    simp

theorem branch_hash_in_parent_skip_flags_concrete :
    branchHashInParentLookup true 0
      (fun _ c => if c = BCol.isBranchPlaceholderS then (1 : ZMod 13) else 0)
      0 = (0, 0)
    ∧ branchHashInParentLookup true 0
      (fun _ c =>
        if c = BCol.notFirstLevel ∨ c = BCol.isLastBranchChild
        then (1 : ZMod 13) else 0)
      0 = (branchAcc 0 0, 0) :=
  ⟨(branch_hash_in_parent_skip_flags true 0
      (fun _ c => if c = BCol.isBranchPlaceholderS then (1 : ZMod 13) else 0)
      0).1 (Or.inl (by decide)),
   (branch_hash_in_parent_skip_flags true 0
      (fun _ c =>
        if c = BCol.notFirstLevel ∨ c = BCol.isLastBranchChild
        then (1 : ZMod 13) else 0)
      0).2 ⟨by decide, by decide, by decide, by decide, by decide⟩⟩

/-- C9: on a real (non-skipped) last-branch-child row with `q_not_first = 1`,
the two lookups of `branch_hash_in_parent.rs` are complementary: when
`not_first_level = 0` the root-comparison tuple carries the payload and the
hash-in-parent tuple is zero; when `not_first_level = 1` it is the other way
round. -/
theorem branch_lookup_level_exclusive (isS : Bool) (ext : F)
    (A : ℤ → BCol → F) (i : ℤ)
    (hq : A i BCol.qNotFirst = 1) (hl : A i BCol.isLastBranchChild = 1)
    (hp : A (i - 16) (placeholderCol isS) = 0) (he : ext = 0)
    (ha : A (i - 17) BCol.isAccountLeafInAddedBranch = 0) :
    (A i BCol.notFirstLevel = 0 →
      branchRootLookup A i
          = (branchAcc (A i BCol.acc) (A i BCol.accMult), A i BCol.interRoot)
        ∧ branchHashInParentLookup isS ext A i = (0, 0))
    ∧ (A i BCol.notFirstLevel = 1 →
      branchRootLookup A i = (0, 0)
        ∧ branchHashInParentLookup isS ext A i
            = (branchAcc (A i BCol.acc) (A i BCol.accMult),
               A (i - 19) BCol.modNodeHashRlc)) := by
  constructor
  · intro hn
    constructor
    · unfold branchRootLookup
      rw [hq, hl, hn]
      simp
    · unfold branchHashInParentLookup
      rw [hn]
      simp
  · intro hn
    constructor
    · unfold branchRootLookup
      rw [hn]
      simp
    · unfold branchHashInParentLookup
      rw [hp, he, ha, hn, hl]
      simp

theorem branch_lookup_level_exclusive_concrete :
    (branchRootLookup
        (fun _ c =>
          if c = BCol.qNotFirst ∨ c = BCol.isLastBranchChild
          then (1 : ZMod 13) else 0) 0
        = (branchAcc 0 0, 0)
      ∧ branchHashInParentLookup true 0
        (fun _ c =>
          if c = BCol.qNotFirst ∨ c = BCol.isLastBranchChild
          then (1 : ZMod 13) else 0) 0 = (0, 0))
    ∧ (branchRootLookup
        (fun _ c =>
          if c = BCol.qNotFirst ∨ c = BCol.isLastBranchChild
              ∨ c = BCol.notFirstLevel
          then (1 : ZMod 13) else 0) 0 = (0, 0)
      ∧ branchHashInParentLookup true 0
        (fun _ c =>
          if c = BCol.qNotFirst ∨ c = BCol.isLastBranchChild
              ∨ c = BCol.notFirstLevel
          then (1 : ZMod 13) else 0) 0
        = (branchAcc 0 0, 0)) :=
  ⟨(branch_lookup_level_exclusive true 0 _ 0
      (by decide) (by decide) (by decide) (by decide) (by decide)).1 (by decide),
   (branch_lookup_level_exclusive true 0 _ 0
      (by decide) (by decide) (by decide) (by decide) (by decide)).2 (by decide)⟩

/-- Columns queried by `LeafValueChip::configure` (`leaf_value.rs`).
`scKeccak k` is the k-th column of the `sc_keccak` array (its width
`KECCAK_OUTPUT_WIDTH` stays a parameter below), `sAdvice k` the k-th of the
32 `s_advices` columns. -/
inductive LCol
  | sRlp1
  | sRlp2
  | sAdvice (k : ℕ)
  | scKeccak (k : ℕ)
  | acc
  | accMult
  | sel
  | isAccountLeafStorageCodehashC
  | isBranchPlaceholder
  deriving DecidableEq

/-- Rotation into the branch init row used by `leaf_value.rs`
(`rot_into_init`): -20 for the S chip instance, -22 for C. -/
def rotIntoInitLV (isS : Bool) : ℤ := if isS then -20 else -22

/-- Rotation to the account leaf storage-codehash C row used by the first
lookup of `leaf_value.rs` (`rot_leaf`): -1 for S, -2 for C. -/
def rotLeafLV (isS : Bool) : ℤ := if isS then -1 else -2

/-- The leaf RLC folded in both lookups of `leaf_value.rs`: it continues
from `acc` and `acc_mult` of the previous row and folds `s_rlp1`, `s_rlp2`
and the 32 `s_advices` bytes of the current row. -/
def leafValueRlc (r : F) (A : ℤ → LCol → F) (i : ℤ) : F :=
  (rlcStep r (A (i - 1) LCol.acc, A (i - 1) LCol.accMult)
    ([A i LCol.sRlp1, A i LCol.sRlp2]
      ++ (List.range 32).map (fun k => A i (LCol.sAdvice k)))).1

/-- Left-hand tuple (as a list, RLC component first) of the first lookup of
`leaf_value.rs` (normal parent branch): every component carries the factors
`(1 - sel)` (sel read at rotation -6), `(1 - is_leaf_without_branch)` and
`(1 - is_branch_placeholder)`. -/
def leafValueLookupNormal (isS : Bool) (W : ℕ) (r qe : F)
    (A : ℤ → LCol → F) (i : ℤ) : List F :=
  (qe * leafValueRlc r A i * (1 - A (i - 6) LCol.sel)
      * (1 - A (i + rotLeafLV isS) LCol.isAccountLeafStorageCodehashC)
      * (1 - A (i + rotIntoInitLV isS) LCol.isBranchPlaceholder))
    :: (List.range W).map (fun k =>
        qe * A (i - 6) (LCol.scKeccak k) * (1 - A (i - 6) LCol.sel)
          * (1 - A (i + rotLeafLV isS) LCol.isAccountLeafStorageCodehashC)
          * (1 - A (i + rotIntoInitLV isS) LCol.isBranchPlaceholder))

/-- Left-hand tuple of the second lookup of `leaf_value.rs` (placeholder
parent branch): the hash is compared in the grandparent branch (`sc_keccak`
read at `rot_into_init - 3`), gated by `is_branch_placeholder` itself, and
again every component carries the factor `(1 - sel)`. -/
def leafValueLookupPlaceholder (isS : Bool) (W : ℕ) (r qe : F)
    (A : ℤ → LCol → F) (i : ℤ) : List F :=
  (qe * leafValueRlc r A i * (1 - A (i - 6) LCol.sel)
      * (1 - A (i + rotIntoInitLV isS - 1) LCol.isAccountLeafStorageCodehashC)
      * A (i + rotIntoInitLV isS) LCol.isBranchPlaceholder)
    :: (List.range W).map (fun k =>
        qe * A (i + rotIntoInitLV isS - 3) (LCol.scKeccak k)
          * (1 - A (i - 6) LCol.sel)
          * (1 - A (i + rotIntoInitLV isS - 1) LCol.isAccountLeafStorageCodehashC)
          * A (i + rotIntoInitLV isS) LCol.isBranchPlaceholder)

lemma map_range_eq_replicate_zero (W : ℕ) (f : ℕ → F)
    (hf : ∀ k, f k = 0) :
    (List.range W).map f = List.replicate W (0 : F) := by
  induction W with
  | zero => rfl
  | succ n ih =>
    rw [List.range_succ, List.map_append, ih, List.replicate_succ']
    simp [hf]

/-- C5: whenever the `sel` flag read at rotation -6 is 1, every component of
both lookup tuples of `leaf_value.rs` vanishes (each carries the factor
`1 - sel`), so neither lookup constrains the leaf hash. -/
theorem leaf_value_lookups_suppressed_by_sel (isS : Bool) (W : ℕ) (r qe : F)
    (A : ℤ → LCol → F) (i : ℤ) (h : A (i - 6) LCol.sel = 1) :
    leafValueLookupNormal isS W r qe A i = List.replicate (W + 1) (0 : F)
      ∧ leafValueLookupPlaceholder isS W r qe A i
          = List.replicate (W + 1) (0 : F) := by
  constructor
  · unfold leafValueLookupNormal
    rw [h, List.replicate_succ]
    refine congrArg₂ List.cons (by ring) ?_
    exact map_range_eq_replicate_zero W _ (fun k => by ring)
  · unfold leafValueLookupPlaceholder
    rw [h, List.replicate_succ]
    refine congrArg₂ List.cons (by ring) ?_
    exact map_range_eq_replicate_zero W _ (fun k => by ring)

theorem leaf_value_lookups_suppressed_by_sel_concrete :
    leafValueLookupNormal true 4 2 1 (fun _ _ => (1 : ZMod 13)) 0
        = List.replicate 5 (0 : ZMod 13)
      ∧ leafValueLookupPlaceholder true 4 2 1 (fun _ _ => (1 : ZMod 13)) 0
        = List.replicate 5 (0 : ZMod 13) :=
  leaf_value_lookups_suppressed_by_sel true 4 2 1 (fun _ _ => (1 : ZMod 13)) 0 rfl

/-- Byte columns of the two RLC-feeding chips, for the range-check
inventory: `sAdvice`/`cAdvice` are the 32-wide `s_advices`/`c_advices`
arrays, plus the RLP prefix byte columns. -/
inductive MCol
  | sRlp1
  | sRlp2
  | cRlp2
  | sAdvice (k : ℕ)
  | cAdvice (k : ℕ)
  deriving DecidableEq

/-- Byte columns folded into the leaf RLC of `leaf_value.rs` (the lookup
folds `s_rlp1`, `s_rlp2` and the 32 `s_advices` current-row bytes; the
`acc`/`acc_mult` reads are accumulator columns, not bytes). -/
def leafValueFoldedByteCols : List MCol :=
  [MCol.sRlp1, MCol.sRlp2] ++ (List.range 32).map MCol.sAdvice

/-- Modelled from the spec: `range_lookups` (in `helpers.rs`, outside the
sampled sources) registers a 0-255 fixed-table lookup for each column of
the list it is given.  This is the concatenation of the column lists passed
to `range_lookups` with `FixedTableTag::Range256` in
`LeafValueChip::configure`. -/
def leafValueRangeCheckedCols : List MCol :=
  (List.range 32).map MCol.sAdvice ++ [MCol.sRlp1, MCol.sRlp2]

/-- Byte columns folded into the storage-codehash RLC of
`account_leaf_storage_codehash.rs`: `s_rlp2`, the 32 `s_advices` bytes,
`c_rlp2` and the 32 `c_advices` bytes. -/
def storageCodehashFoldedByteCols : List MCol :=
  [MCol.sRlp2] ++ (List.range 32).map MCol.sAdvice
    ++ [MCol.cRlp2] ++ (List.range 32).map MCol.cAdvice

/-- Modelled from the spec: the concatenation of the column lists passed to
`range_lookups` with `FixedTableTag::Range256` in
`AccountLeafStorageCodehashChip::configure` (`s_rlp1` and `c_rlp1` are not
used, per the source comment). -/
def storageCodehashRangeCheckedCols : List MCol :=
  (List.range 32).map MCol.sAdvice ++ (List.range 32).map MCol.cAdvice
    ++ [MCol.sRlp2, MCol.cRlp2]

/-- C4: in both chips, the byte columns folded into the hash-lookup RLC and
the byte columns range-checked to 0-255 coincide: 34 columns (32 `s_advices`
plus `s_rlp1`, `s_rlp2`) for the leaf value chip and 66 columns (32
`s_advices`, 32 `c_advices`, `s_rlp2`, `c_rlp2`) for the account leaf
storage-codehash chip. -/
theorem rlc_byte_columns_range_checked :
    leafValueFoldedByteCols ⊆ leafValueRangeCheckedCols
      ∧ leafValueRangeCheckedCols ⊆ leafValueFoldedByteCols
      ∧ storageCodehashFoldedByteCols ⊆ storageCodehashRangeCheckedCols
      ∧ storageCodehashRangeCheckedCols ⊆ storageCodehashFoldedByteCols := by
  refine ⟨?_, ?_, ?_, ?_⟩ <;> decide

/-- Columns queried by the "account leaf storage codehash" gate of
`AccountLeafStorageCodehashChip::configure`. -/
inductive ACol
  | sRlp2
  | cRlp2
  | sAdvice (k : ℕ)
  | cAdvice (k : ℕ)
  | acc
  | accMult
  deriving DecidableEq

/-- Rotation to the previous accumulator row in
`account_leaf_storage_codehash.rs`: -1 for the S chip instance, -2 for C. -/
def rotSC (isS : Bool) : ℤ := if isS then -1 else -2

/-- The folded tail RLC `expr` of the gate: starting from `acc` and
`acc_mult` of the row at `rotSC`, fold `s_rlp2`, the 32 `s_advices` bytes,
`c_rlp2` and the 32 `c_advices` bytes of the current row, in that order. -/
def storageCodehashExpr (isS : Bool) (r : F) (A : ℤ → ACol → F) (i : ℤ) : F :=
  (rlcStep r (A (i + rotSC isS) ACol.acc, A (i + rotSC isS) ACol.accMult)
    ([A i ACol.sRlp2]
      ++ (List.range 32).map (fun k => A i (ACol.sAdvice k))
      ++ [A i ACol.cRlp2]
      ++ (List.range 32).map (fun k => A i (ACol.cAdvice k)))).1

/-- Gate polynomial "account leaf storage codehash s_rlp2":
`q_enable * (s_rlp2 - 160)`. -/
def scGateSRlp2 (qe : F) (A : ℤ → ACol → F) (i : ℤ) : F :=
  qe * (A i ACol.sRlp2 - 160)

/-- Gate polynomial "account leaf storage codehash c_rlp2":
`q_enable * (c_rlp2 - 160)`. -/
def scGateCRlp2 (qe : F) (A : ℤ → ACol → F) (i : ℤ) : F :=
  qe * (A i ACol.cRlp2 - 160)

/-- Gate polynomial "account leaf storage codehash acc":
`q_enable * (expr - acc)` with `expr` the folded tail RLC. -/
def scGateAcc (isS : Bool) (r qe : F) (A : ℤ → ACol → F) (i : ℤ) : F :=
  qe * (storageCodehashExpr isS r A i - A i ACol.acc)

lemma storageCodehashExpr_closed (isS : Bool) (r : F) (A : ℤ → ACol → F)
    (i : ℤ) :
    storageCodehashExpr isS r A i
      = A (i + rotSC isS) ACol.acc
        + A (i + rotSC isS) ACol.accMult
          * (A i ACol.sRlp2
            + (∑ k in Finset.range 32, A i (ACol.sAdvice k) * r ^ (k + 1))
            + A i ACol.cRlp2 * r ^ 33
            + ∑ k in Finset.range 32, A i (ACol.cAdvice k) * r ^ (34 + k)) := by
  have h1 : ∑ k in Finset.range 32, A i (ACol.sAdvice k) * r ^ (k + 1)
      = r * ∑ k in Finset.range 32, A i (ACol.sAdvice k) * r ^ k := by
    rw [Finset.mul_sum]
    refine Finset.sum_congr rfl (fun k _ => ?_)
    rw [pow_succ]
    ring
  have h2 : ∑ k in Finset.range 32, A i (ACol.cAdvice k) * r ^ (34 + k)
      = r ^ 34 * ∑ k in Finset.range 32, A i (ACol.cAdvice k) * r ^ k := by
    rw [Finset.mul_sum]
    refine Finset.sum_congr rfl (fun k _ => ?_)
    rw [pow_add]
    ring
  unfold storageCodehashExpr
  rw [rlcStep_append, rlcStep_append, rlcStep_append, rlcStep_singleton,
    rlcStep_range, rlcStep_singleton, rlcStep_range, h1, h2]
  ring

/-- C6: whenever `q_enable` is nonzero, the "acc" gate polynomial of
`account_leaf_storage_codehash.rs` vanishes exactly when the current `acc`
equals the previous-row accumulator extended by the tail bytes `s_rlp2`,
`s_advices`, `c_rlp2`, `c_advices`, weighted by the successive powers of
`acc_r` times the previous `acc_mult`; the same statement covers the S
(`rotSC = -1`) and C (`rotSC = -2`) chip instances. -/
theorem storage_codehash_acc_gate_folds_tail (isS : Bool) (r qe : F)
    (A : ℤ → ACol → F) (i : ℤ) (hq : qe ≠ 0) :
    scGateAcc isS r qe A i = 0
      ↔ A i ACol.acc
          = A (i + rotSC isS) ACol.acc
            + A (i + rotSC isS) ACol.accMult
              * (A i ACol.sRlp2
                + (∑ k in Finset.range 32, A i (ACol.sAdvice k) * r ^ (k + 1))
                + A i ACol.cRlp2 * r ^ 33
                + ∑ k in Finset.range 32,
                    A i (ACol.cAdvice k) * r ^ (34 + k)) := by
  unfold scGateAcc
  rw [mul_eq_zero, sub_eq_zero, storageCodehashExpr_closed]
  constructor
  · intro h
    rcases h with h | h
    · exact absurd h hq
    · exact h.symm
  · intro h
    exact Or.inr h.symm

theorem storage_codehash_acc_gate_folds_tail_concrete :
    scGateAcc true 2 1 (fun _ _ => (0 : ZMod 13)) 0 = 0 :=
  (storage_codehash_acc_gate_folds_tail true 2 1 (fun _ _ => (0 : ZMod 13)) 0
    (by decide)).mpr (by simp)

/-- C7: whenever `q_enable` is nonzero, the two RLP-prefix gate polynomials
of `account_leaf_storage_codehash.rs` vanish exactly when `s_rlp2` and
`c_rlp2` of the current row equal the field constant 160 (the RLP
short-string marker 128 + 32). -/
theorem storage_codehash_rlp2_gate_eq_160 (qe : F) (A : ℤ → ACol → F)
    (i : ℤ) (hq : qe ≠ 0) :
    (scGateSRlp2 qe A i = 0 ↔ A i ACol.sRlp2 = 160)
      ∧ (scGateCRlp2 qe A i = 0 ↔ A i ACol.cRlp2 = 160) := by
  constructor
  · unfold scGateSRlp2
    rw [mul_eq_zero, sub_eq_zero]
    exact ⟨fun h => h.resolve_left hq, Or.inr⟩
  · unfold scGateCRlp2
    rw [mul_eq_zero, sub_eq_zero]
    exact ⟨fun h => h.resolve_left hq, Or.inr⟩

theorem storage_codehash_rlp2_gate_eq_160_concrete :
    scGateSRlp2 1 (fun _ _ => (160 : ZMod 13)) 0 = 0
      ∧ scGateCRlp2 1 (fun _ _ => (160 : ZMod 13)) 0 = 0 :=
  ⟨(storage_codehash_rlp2_gate_eq_160 1 (fun _ _ => (160 : ZMod 13)) 0
      (by decide)).1.mpr rfl,
   (storage_codehash_rlp2_gate_eq_160 1 (fun _ _ => (160 : ZMod 13)) 0
      (by decide)).2.mpr rfl⟩

/-- Columns queried by `AccountNonExistingConfig::configure`
(`account_non_existing.rs`): `isWrongLeaf` is `s_main.rlp1`,
`isNonExistingProof` is `proof_type.is_non_existing_account_proof`,
`keyRlc`/`keyMult` are `accs.key.rlc`/`accs.key.mult`, `accSRlc` is
`accs.acc_s.rlc` (holding `diff_inv`), and `keyByte k` is the k-th of the
33 key byte columns `[s_main.rlp_bytes(), c_main.rlp_bytes()].concat()[3..36]`. -/
inductive NECol
  | isWrongLeaf
  | isNonExistingProof
  | keyRlc
  | keyMult
  | accSRlc
  | keyByte (k : ℕ)
  deriving DecidableEq

/-- Modelled from the spec: `rlc::expr` (in `evm_circuit::util`, outside
the sampled sources) folds a byte sequence as
`b0 + b1 * r + b2 * r ^ 2 + ...`; here applied, as in `calc_rlc` of
`account_non_existing.rs`, to the 33 key byte columns read at rotation
`rot` from the anchor row. -/
def calcRlc (r : F) (A : ℤ → NECol → F) (i rot : ℤ) : F :=
  ∑ k in Finset.range 33, A (i + rot) (NECol.keyByte k) * r ^ k

/-- Row index of the `ACCOUNT_LEAF_KEY_C` row inside the 8-row account leaf
block, from the row-order list in the header comment of
`account_non_existing.rs` (`param.rs` itself is outside the sampled
sources). -/
def ACCOUNT_LEAF_KEY_C_IND : ℤ := 1

/-- Row index of the `ACCOUNT_NON_EXISTING` row inside the 8-row account
leaf block, from the same row-order list. -/
def ACCOUNT_NON_EXISTING_IND : ℤ := 2

/-- The `require!(rlc_prev => calc_rlc(-1))` constraint of
`add_wrong_leaf_constraints`, gated (per the surrounding `ifx!` blocks) by
the non-existing-account proof selector and the `is_wrong_leaf` flag:
`rlc_prev` is the stored value in `accs.key.mult` of the current row and
the RLC is recomputed at rotation -1. -/
def wrongLeafRlcPrevGate (r : F) (A : ℤ → NECol → F) (i : ℤ) : F :=
  A i NECol.isNonExistingProof * A i NECol.isWrongLeaf
    * (A i NECol.keyMult - calcRlc r A i (-1))

/-- C8: in the wrong-leaf sub-case (both selectors equal to 1), the gated
constraint vanishes exactly when the stored `accs.key.mult` value equals
the key RLC recomputed at row offset -1, and offset -1 from the
`ACCOUNT_NON_EXISTING` row is precisely the `ACCOUNT_LEAF_KEY_C` row of the
block. -/
theorem wrong_leaf_rlc_prev_rotation (r : F) (A : ℤ → NECol → F) (i : ℤ)
    (h1 : A i NECol.isNonExistingProof = 1) (h2 : A i NECol.isWrongLeaf = 1) :
    (wrongLeafRlcPrevGate r A i = 0
        ↔ A i NECol.keyMult = calcRlc r A i (-1))
      ∧ i + (-1) = i - (ACCOUNT_NON_EXISTING_IND - ACCOUNT_LEAF_KEY_C_IND) := by
  constructor
  · unfold wrongLeafRlcPrevGate
    rw [h1, h2, one_mul, one_mul, sub_eq_zero]
  · unfold ACCOUNT_NON_EXISTING_IND ACCOUNT_LEAF_KEY_C_IND
    ring

theorem wrong_leaf_rlc_prev_rotation_concrete :
    (wrongLeafRlcPrevGate (1 : ZMod 13) (fun _ _ => 1) 0 = 0
        ↔ (1 : ZMod 13) = calcRlc 1 (fun _ _ => 1) 0 (-1))
      ∧ (0 : ℤ) + (-1)
          = 0 - (ACCOUNT_NON_EXISTING_IND - ACCOUNT_LEAF_KEY_C_IND) :=
  wrong_leaf_rlc_prev_rotation (1 : ZMod 13) (fun _ _ => 1) 0 rfl rfl

/-- Modelled from the spec: `require!(is_wrong_leaf => bool)` asserts
booleanity by the `x * (1 - x) = 0` gate of the constraint-builder DSL. -/
def isWrongLeafBoolGate (A : ℤ → NECol → F) (i : ℤ) : F :=
  A i NECol.isWrongLeaf * (1 - A i NECol.isWrongLeaf)

/-- Modelled from the spec: the `elsex` branch of the DSL multiplies its
constraints by the complement of the condition, so
`require!(is_wrong_leaf => false)` outside the non-existing-account proof
type registers `(1 - is_non_existing_account_proof) * is_wrong_leaf`. -/
def isWrongLeafOffGate (A : ℤ → NECol → F) (i : ℤ) : F :=
  (1 - A i NECol.isNonExistingProof) * A i NECol.isWrongLeaf

/-- C10: the booleanity gate vanishes exactly when `is_wrong_leaf` is 0 or
1, and when the proof-type selector is 0 (not a non-existing-account
proof) the `elsex` gate vanishes exactly when `is_wrong_leaf` is 0. -/
theorem is_wrong_leaf_boolean_and_forced_off (A : ℤ → NECol → F) (i : ℤ) :
    (isWrongLeafBoolGate A i = 0
        ↔ A i NECol.isWrongLeaf = 0 ∨ A i NECol.isWrongLeaf = 1)
      ∧ (A i NECol.isNonExistingProof = 0 →
          (isWrongLeafOffGate A i = 0 ↔ A i NECol.isWrongLeaf = 0)) := by
  constructor
  · unfold isWrongLeafBoolGate
    rw [mul_eq_zero, sub_eq_zero]
    exact ⟨fun h => h.imp id Eq.symm, fun h => h.imp id Eq.symm⟩
  · intro h
    unfold isWrongLeafOffGate
    rw [h, sub_zero, one_mul]

theorem is_wrong_leaf_boolean_and_forced_off_concrete :
    isWrongLeafOffGate (fun _ _ => (0 : ZMod 13)) 0 = 0
      ↔ (fun (_ : ℤ) (_ : NECol) => (0 : ZMod 13)) 0 NECol.isWrongLeaf = 0 :=
  (is_wrong_leaf_boolean_and_forced_off (fun _ _ => (0 : ZMod 13)) 0).2 rfl

/-- One iteration step of the key-RLC loop of
`AccountNonExistingConfig::assign`: `neLoop r rowByte leafKeyCByte n` is
`(sum, sum_prev, mult)` after `n` iterations, where each iteration adds
`row.get_byte(3 + i) * mult` to `sum`, `leaf_key_c.get_byte(3 + i) * mult`
to `sum_prev`, and multiplies `mult` by the randomness. -/
def neLoop (r : F) (rowByte leafKeyCByte : ℕ → ℕ) : ℕ → F × F × F
  | 0 => (0, 0, 1)
  | n + 1 =>
    ((neLoop r rowByte leafKeyCByte n).1
        + (rowByte (3 + n) : F) * (neLoop r rowByte leafKeyCByte n).2.2,
     (neLoop r rowByte leafKeyCByte n).2.1
        + (leafKeyCByte (3 + n) : F) * (neLoop r rowByte leafKeyCByte n).2.2,
     (neLoop r rowByte leafKeyCByte n).2.2 * r)

/-- Models `AccountNonExistingConfig::assign`: `rowByte` is the byte
reader of the `ACCOUNT_NON_EXISTING` witness row, `leafKeyCByte` of the
row at offset `ACCOUNT_NON_EXISTING_IND - ACCOUNT_LEAF_KEY_C_IND` above it
(the `ACCOUNT_LEAF_KEY_C` row); `key_len = leaf_key_c.get_byte(2) - 128`,
the loop runs over the first `key_len` key bytes, and `diff_inv` is the
inverse of `sum - sum_prev` when the difference is nonzero and the field
zero otherwise.  Returns `(sum, sum_prev, diff_inv)`. -/
def assignNonExisting [DecidableEq F] (r : F)
    (rowByte leafKeyCByte : ℕ → ℕ) : F × F × F :=
  (  (neLoop r rowByte leafKeyCByte (leafKeyCByte 2 - 128)).1,
     (neLoop r rowByte leafKeyCByte (leafKeyCByte 2 - 128)).2.1,
     if (neLoop r rowByte leafKeyCByte (leafKeyCByte 2 - 128)).1
         ≠ (neLoop r rowByte leafKeyCByte (leafKeyCByte 2 - 128)).2.1
     then ((neLoop r rowByte leafKeyCByte (leafKeyCByte 2 - 128)).1
            - (neLoop r rowByte leafKeyCByte (leafKeyCByte 2 - 128)).2.1)⁻¹
     else 0)

lemma neLoop_closed (r : F) (rowByte leafKeyCByte : ℕ → ℕ) (n : ℕ) :
    neLoop r rowByte leafKeyCByte n
      = (∑ k in Finset.range n, (rowByte (3 + k) : F) * r ^ k,
         ∑ k in Finset.range n, (leafKeyCByte (3 + k) : F) * r ^ k,
         r ^ n) := by
  induction n with
  | zero => simp [neLoop]
  | succ n ih =>
    rw [neLoop, ih, Finset.sum_range_succ, Finset.sum_range_succ, pow_succ]

set_option maxRecDepth 8000 in
/-- C3: the assignment computes `sum` and `sum_prev` as the key RLCs of the
`ACCOUNT_NON_EXISTING` and `ACCOUNT_LEAF_KEY_C` rows over the first
`key_len` key bytes with the identical multiplier sequence
`1, r, r ^ 2, ...`, sets `diff_inv` to 0 when the two values coincide, and
otherwise to a genuine inverse of the difference, so the constrained
product equals 1; the hypothesis scopes it to well-formed key-length bytes
(at least 128), where the `key_len` subtraction cannot underflow. -/
theorem account_non_existing_assign_spec [DecidableEq F] (r : F)
    (rowByte leafKeyCByte : ℕ → ℕ) (hlen : 128 ≤ leafKeyCByte 2) :
    (assignNonExisting r rowByte leafKeyCByte).1
        = ∑ k in Finset.range (leafKeyCByte 2 - 128),
            (rowByte (3 + k) : F) * r ^ k
      ∧ (assignNonExisting r rowByte leafKeyCByte).2.1
          = ∑ k in Finset.range (leafKeyCByte 2 - 128),
              (leafKeyCByte (3 + k) : F) * r ^ k
      ∧ ((assignNonExisting r rowByte leafKeyCByte).1
            = (assignNonExisting r rowByte leafKeyCByte).2.1 →
          (assignNonExisting r rowByte leafKeyCByte).2.2 = 0)
      ∧ ((assignNonExisting r rowByte leafKeyCByte).1
            ≠ (assignNonExisting r rowByte leafKeyCByte).2.1 →
          ((assignNonExisting r rowByte leafKeyCByte).1
              - (assignNonExisting r rowByte leafKeyCByte).2.1)
            * (assignNonExisting r rowByte leafKeyCByte).2.2 = 1) := by
  refine ⟨?_, ?_, ?_, ?_⟩
  · rw [assignNonExisting, neLoop_closed]
  · rw [assignNonExisting, neLoop_closed]
  · intro h
    rw [assignNonExisting] at h ⊢
    rw [if_neg (fun hne => hne h)]
  · intro h
    rw [assignNonExisting] at h ⊢
    rw [if_pos h]
    exact mul_inv_cancel₀ (sub_ne_zero.mpr h)

set_option maxRecDepth 8000 in
theorem account_non_existing_assign_spec_concrete :
    ((assignNonExisting (2 : ZMod 13) (fun n => n) (fun _ => 130)).1
          - (assignNonExisting (2 : ZMod 13) (fun n => n) (fun _ => 130)).2.1)
        * (assignNonExisting (2 : ZMod 13) (fun n => n) (fun _ => 130)).2.2 = 1
      ∧ (assignNonExisting (2 : ZMod 13) (fun n => n)
          (fun n => if n = 2 then 130 else n)).2.2 = 0 :=
  ⟨(account_non_existing_assign_spec (2 : ZMod 13) (fun n => n) (fun _ => 130)
      (by decide)).2.2.2 (by decide),
   (account_non_existing_assign_spec (2 : ZMod 13) (fun n => n)
      (fun n => if n = 2 then 130 else n) (by decide)).2.2.1 (by decide)⟩
